import Mathlib

/-!
Shallow embedding of the TermBackup cryptographic snapshot engine
(`termbackup/crypto.py`, `termbackup/snapshot.py`, `termbackup/restore.py`,
`termbackup/utils.py`, `termbackup/delta.py`, `termbackup/manifest.py`,
`termbackup/models.py`, `termbackup/cli.py`).

Bytes are modelled as `List Nat` (each entry a byte value), byte strings and
paths as lists of path components, and the AEAD / signature primitives (the
external `cryptography` library) as explicit function parameters.  Randomness
(nonces, salts) is threaded explicitly as arguments.  Python exceptions are
modelled with `Except`.
-/

namespace Termbackup

/-! ### Envelope codec: `termbackup/crypto.py` -/

/-- Error classes from `termbackup/errors.py` that the envelope codec raises. -/
inductive CryptoError where
  | encryptionError (msg : String)
  | decryptionError (msg : String)
deriving DecidableEq, Repr

/-- Constant `NONCE_LEN = 12` from `crypto.py`. -/
def NONCE_LEN : Nat := 12

/-- Constant `KEY_LEN = 32` from `crypto.py`. -/
def KEY_LEN : Nat := 32

/-- Embedding of `crypto.encrypt` (crypto.py lines 64-77).  The AES-256-GCM
one-shot primitive (`AESGCM(key).encrypt`) is the external parameter
`primEnc : nonce → key → plaintext → ciphertext-with-tag`; the random nonce
drawn by `generate_nonce()` is threaded explicitly.  The key-length guard
fails with `EncryptionError` before the primitive is touched; on success the
result is `nonce ++ ciphertext`. -/
def encrypt (primEnc : List Nat → List Nat → List Nat → List Nat)
    (nonce data key : List Nat) : Except CryptoError (List Nat) :=
  if key.length ≠ KEY_LEN then
    .error (.encryptionError "Invalid key length for AES-256-GCM.")
  else
    .ok (nonce ++ primEnc nonce key data)

/-- Embedding of `crypto.decrypt` (crypto.py lines 79-96).  The AES-256-GCM
decryption primitive (`AESGCM(key).decrypt`, returning `none` on tag
mismatch) is the external parameter `primDec`.  Checks, in source order: the
payload must be at least `NONCE_LEN + 16` bytes, the key exactly `KEY_LEN`
bytes; then the nonce is split off and the primitive is invoked, with any
primitive failure mapped to `DecryptionError`. -/
def decrypt (primDec : List Nat → List Nat → List Nat → Option (List Nat))
    (payload key : List Nat) : Except CryptoError (List Nat) :=
  if payload.length < NONCE_LEN + 16 then
    .error (.decryptionError "Payload too short.")
  else if key.length ≠ KEY_LEN then
    .error (.decryptionError "Invalid key length.")
  else
    match primDec (payload.take NONCE_LEN) key (payload.drop NONCE_LEN) with
    | some plaintext => .ok plaintext
    | none => .error (.decryptionError "Decryption failed. Invalid key or corrupted data.")

/-! ### Container codec: `termbackup/snapshot.py` and `termbackup/restore.py` -/

/-- Constant `MAGIC_BYTES = b"TBK\x07"` from snapshot.py line 25. -/
def MAGIC_BYTES : List Nat := [0x54, 0x42, 0x4B, 0x07]

/-- Embedding of Python `n.to_bytes(2, "big")` for `n < 2^16`. -/
def toBytesBE2 (n : Nat) : List Nat := [n / 256 % 256, n % 256]

/-- Embedding of Python `int.from_bytes(bs, "big")`. -/
def fromBytesBE (bs : List Nat) : Nat := bs.foldl (fun acc b => acc * 256 + b) 0

/-- Embedding of the container-emission steps of `create_snapshot`
(snapshot.py lines 94-111): encrypt the packed archive `payload` under the
DEK with the fresh `nonce`, sign the *encrypted* payload, and write
`MAGIC_BYTES ++ nonce ++ sig_len(2, big-endian) ++ signature ++ ciphertext`.
The scanning/tar-packing steps produce `payload` and are not modelled here. -/
def create_snapshot_container
    (primEnc : List Nat → List Nat → List Nat → List Nat)
    (signFn : List Nat → List Nat)
    (dek nonce payload : List Nat) : List Nat :=
  MAGIC_BYTES ++ nonce
    ++ toBytesBE2 (signFn (primEnc nonce dek payload)).length
    ++ signFn (primEnc nonce dek payload)
    ++ primEnc nonce dek payload

/-- Embedding of the field-reading part of `_read_snapshot_payload`
(restore.py lines 24-42): read and check the magic, read the 12-byte nonce,
the 2-byte big-endian signature length (failing when fewer than 2 bytes
remain), the signature of that length, and the remaining bytes as the
encrypted payload.  Returns `(nonce, signature, encrypted_payload)`;
signature verification and decryption consume these fields afterwards. -/
def read_snapshot_container (bytes : List Nat) :
    Except String (List Nat × List Nat × List Nat) :=
  if bytes.take MAGIC_BYTES.length ≠ MAGIC_BYTES then
    .error "Invalid magic bytes. Not a valid tbk file."
  else
    match ((bytes.drop MAGIC_BYTES.length).drop 12).take 2 with
    | b0 :: b1 :: [] =>
      .ok ((bytes.drop MAGIC_BYTES.length).take 12,
           (((bytes.drop MAGIC_BYTES.length).drop 12).drop 2).take (fromBytesBE [b0, b1]),
           (((bytes.drop MAGIC_BYTES.length).drop 12).drop 2).drop (fromBytesBE [b0, b1]))
    | _ => .error "File too short."

/-! ### Path validation: `termbackup/utils.py` -/

/-- Absolute POSIX path, as its list of components. -/
abbrev AbsPath := List String

/-- Embedding of `Path(...).resolve()` on a POSIX path given as a component
list: `.` and empty components vanish, `..` removes the previous component
(staying at the root when there is none). -/
def resolveComponents (acc : AbsPath) : List String → AbsPath
  | [] => acc
  | c :: rest =>
    if c = "." ∨ c = "" then resolveComponents acc rest
    else if c = ".." then resolveComponents acc.dropLast rest
    else resolveComponents (acc ++ [c]) rest

/-- Embedding of `str(path)` for a resolved POSIX path: a leading slash
before each component (so `["tmp","t"]` renders as the characters of
`/tmp/t`). -/
def renderPath (p : AbsPath) : List Char :=
  p.foldl (fun acc comp => acc ++ ('/' :: comp.data)) []

/-- Embedding of Python `str.startswith`. -/
def pyStartsWith (s pre : List Char) : Bool := pre.isPrefixOf s

/-- Embedding of `utils.validate_path` (utils.py lines 64-74): resolve the
candidate path and the base directory and accept the candidate iff the
*string rendering* of the resolved candidate starts with the string
rendering of the resolved base (`str(resolved_path).startswith(str(resolved_base))`);
on rejection the source raises `PathTraversalError`, modelled as `none`. -/
def validate_path (path base : AbsPath) : Option AbsPath :=
  if pyStartsWith (renderPath (resolveComponents [] path))
      (renderPath (resolveComponents [] base)) then
    some (resolveComponents [] path)
  else
    none

/-- What the spec means by a path lying strictly inside a base directory:
the resolved base is a proper prefix of the resolved path's component list. -/
def isStrictDescendant (p base : AbsPath) : Bool :=
  base.isPrefixOf p && p ≠ base

/-! ### Restore / extraction: `termbackup/restore.py` -/

/-- One member of the decrypted tar archive: its stored (relative) name as a
component list, whether it is a directory, its content bytes and mtime. -/
structure TarMember where
  name : List String
  isDir : Bool
  content : List Nat
  mtime : Int
deriving DecidableEq, Repr

/-- Name of the metadata archive member `.tbk_meta.json`. -/
def metaName : List String := [".tbk_meta.json"]

/-- Filesystem model: a finite map from absolute paths to file contents,
plus the set of directories. -/
structure FS where
  files : List (AbsPath × List Nat)
  dirs : List AbsPath
deriving DecidableEq, Repr

/-- Whether a path exists on the modelled filesystem (as file or directory),
the embedding of `Path.exists()`. -/
def fsExists (fs : FS) (p : AbsPath) : Bool :=
  fs.files.any (fun e => e.1 = p) || fs.dirs.any (fun d => d = p)

/-- Lookup of a file's content by path. -/
def fsLookup (fs : FS) (p : AbsPath) : Option (List Nat) :=
  (fs.files.find? (fun e => e.1 = p)).map (·.2)

/-- Write (create or overwrite) one file entry in the path-to-content map. -/
def writeFileList : List (AbsPath × List Nat) → AbsPath → List Nat → List (AbsPath × List Nat)
  | [], p, c => [(p, c)]
  | e :: rest, p, c => if e.1 = p then (p, c) :: rest else e :: writeFileList rest p c

/-- Embedding of `open(path, "wb").write(content)`. -/
def fsWriteFile (fs : FS) (p : AbsPath) (c : List Nat) : FS :=
  { fs with files := writeFileList fs.files p c }

/-- Embedding of `Path.mkdir(exist_ok=True)`. -/
def fsMkdir (fs : FS) (p : AbsPath) : FS :=
  if fs.dirs.contains p then fs else { fs with dirs := fs.dirs ++ [p] }

/-- All ancestors of a path, shortest first. -/
def ancestors (p : AbsPath) : List AbsPath :=
  (List.range p.length).map (fun i => p.take (i + 1))

/-- Embedding of `path.parent.mkdir(parents=True, exist_ok=True)`. -/
def mkdirParents (fs : FS) (p : AbsPath) : FS :=
  (ancestors p.dropLast).foldl fsMkdir fs

/-- Embedding of one iteration of the member loop of `restore_snapshot`
(restore.py lines 101-128): skip the metadata member; run the path-traversal
defense (`validate_path`), silently skipping a member it rejects; abort with
`RestoreExtractionError` when the destination exists and `overwrite` is
false; otherwise create the parent directories and either make the
directory or write the file content. -/
def extractMember (target : AbsPath) (overwrite : Bool) (fs : FS) (m : TarMember) :
    Except String FS :=
  if m.name = metaName then .ok fs
  else
    match validate_path (target ++ m.name) target with
    | none => .ok fs
    | some extractedPath =>
      if fsExists fs extractedPath ∧ overwrite = false then
        .error "File already exists. Use overwrite=True."
      else
        let fs1 := mkdirParents fs extractedPath
        if m.isDir then .ok (fsMkdir fs1 extractedPath)
        else .ok (fsWriteFile fs1 extractedPath m.content)

/-- Embedding of the extraction loop of `restore_snapshot` over the decrypted
archive's member list: members are processed in order and the first raised
error aborts the whole restore. -/
def restore_extract (target : AbsPath) (overwrite : Bool) (fs : FS)
    (members : List TarMember) : Except String FS :=
  members.foldlM (extractMember target overwrite) fs

/-- Content found at path `p` after a successful restore with
`overwrite = true`, `none` when the restore failed or wrote no file there. -/
def restoredContent (target : AbsPath) (fs : FS) (members : List TarMember)
    (p : AbsPath) : Option (List Nat) :=
  match restore_extract target true fs members with
  | .ok fs' => fsLookup fs' p
  | .error _ => none

/-! ### Delta engine: `termbackup/delta.py` -/

/-- Embedding of `models.FileFingerprint`. -/
structure FileFingerprint where
  relative_path : String
  sha256 : String
  size : Nat
  mtime : Int
deriving DecidableEq, Repr

/-- Embedding of `models.DeltaResult`. -/
structure DeltaResult where
  added : List FileFingerprint
  modified : List FileFingerprint
  deleted : List FileFingerprint
  unchanged : List FileFingerprint
deriving DecidableEq, Repr

/-- Insertion into a Python dict modelled as an association list: a repeated
key keeps its first position but takes the new value. -/
def dictInsert (m : List (String × FileFingerprint)) (k : String) (v : FileFingerprint) :
    List (String × FileFingerprint) :=
  if m.any (fun e => e.1 = k) then m.map (fun e => if e.1 = k then (k, v) else e)
  else m ++ [(k, v)]

/-- Folding a fingerprint list into the dict, key by `relative_path`. -/
def dictOfList (m : List (String × FileFingerprint)) :
    List FileFingerprint → List (String × FileFingerprint)
  | [] => m
  | fp :: rest => dictOfList (dictInsert m fp.relative_path fp) rest

/-- Embedding of `parent_map = {fp.relative_path: fp for fp in parent}`
(delta.py line 91). -/
def parent_map (parent : List FileFingerprint) : List (String × FileFingerprint) :=
  dictOfList [] parent

/-- Dict lookup. -/
def dictLookup (m : List (String × FileFingerprint)) (k : String) : Option FileFingerprint :=
  (m.find? (fun e => e.1 = k)).map (·.2)

/-- Embedding of `compute_delta` (delta.py lines 84-119).  `if not parent:`
is true both for `None` and for an empty list.  Otherwise each current
fingerprint is classified through `parent_map` (absent path → added,
differing hash → modified, equal hash → unchanged), and the entries of
`parent_map` whose path is not among the current paths form `deleted`. -/
def compute_delta (current : List FileFingerprint)
    (parent : Option (List FileFingerprint)) : DeltaResult :=
  match parent with
  | none => { added := current, modified := [], deleted := [], unchanged := [] }
  | some ps =>
    if ps.isEmpty then { added := current, modified := [], deleted := [], unchanged := [] }
    else
      { added := current.filter (fun fp => (dictLookup (parent_map ps) fp.relative_path).isNone),
        modified := current.filter (fun fp =>
          match dictLookup (parent_map ps) fp.relative_path with
          | some pfp => decide (pfp.sha256 ≠ fp.sha256)
          | none => false),
        deleted := ((parent_map ps).filter
          (fun e => ! current.any (fun c => c.relative_path = e.1))).map (·.2),
        unchanged := current.filter (fun fp =>
          match dictLookup (parent_map ps) fp.relative_path with
          | some pfp => decide (pfp.sha256 = fp.sha256)
          | none => false) }

/-! ### Manifest ledger: `termbackup/manifest.py` -/

/-- Embedding of `models.ManifestEntry` (`uploaded_at` kept abstract as a
string timestamp; it takes no part in any manifest operation). -/
structure ManifestEntry where
  snapshot_id : String
  filename : String
  sha256 : String
  size : Nat
  uploaded_at : String
deriving DecidableEq, Repr

/-- Embedding of `models.Manifest`. -/
structure Manifest where
  version : String := "1.0"
  entries : List ManifestEntry := []
deriving DecidableEq, Repr

/-- Embedding of `create_initial_manifest` (manifest.py lines 10-12). -/
def create_initial_manifest : Manifest := {}

/-- Sort key used by `append_entry`: `lambda x: x.snapshot_id`. -/
def entryLe (a b : ManifestEntry) : Bool := a.snapshot_id ≤ b.snapshot_id

/-- Embedding of `append_entry` (manifest.py lines 26-35): copy the entry
list, append the new entry, sort by `snapshot_id` (Python `list.sort` is a
stable sort, modelled by `List.mergeSort`), and build a new manifest with
the same version.  The input manifest value is left untouched. -/
def append_entry (manifest : Manifest) (entry : ManifestEntry) : Manifest :=
  { version := manifest.version,
    entries := (manifest.entries ++ [entry]).mergeSort entryLe }

/-- The per-entry hash shape test of `verify_integrity`
(`not entry.sha256 or len(entry.sha256) != 64`, manifest.py line 50). -/
def malformedHash (e : ManifestEntry) : Prop := e.sha256 = "" ∨ e.sha256.length ≠ 64

instance (e : ManifestEntry) : Decidable (malformedHash e) := by
  unfold malformedHash; infer_instance

/-- Loop of `verify_integrity` (manifest.py lines 43-52), carrying the
`seen` set of snapshot ids: per entry, first a duplicate-id violation when
the id was already seen, then a hash-shape violation when the hash is empty
or not 64 characters long. -/
def verifyGo (seen : List String) : List ManifestEntry → List String
  | [] => []
  | e :: rest =>
    (if e.snapshot_id ∈ seen then ["Duplicate snapshot ID in manifest: " ++ e.snapshot_id] else [])
      ++ (if malformedHash e then ["Invalid SHA-256 for snapshot " ++ e.snapshot_id] else [])
      ++ verifyGo (seen ++ [e.snapshot_id]) rest

/-- Embedding of `verify_integrity` (manifest.py lines 37-53). -/
def verify_integrity (manifest : Manifest) : List String :=
  verifyGo [] manifest.entries

/-- Number of duplicate-id violations the loop produces: entries whose
snapshot id already occurred (in `seen` or earlier in the list). -/
def dupFlagCount (seen : List String) : List ManifestEntry → Nat
  | [] => 0
  | e :: rest =>
    (if e.snapshot_id ∈ seen then 1 else 0) + dupFlagCount (seen ++ [e.snapshot_id]) rest

/-- What the spec means by a well-formed content hash: exactly 64
hexadecimal characters. -/
def isHex64 (s : String) : Bool :=
  s.length = 64 && s.data.all (fun c =>
    c.isDigit || ('a' ≤ c && c ≤ 'f') || ('A' ≤ c && c ≤ 'F'))

/-! ### Profile key material: `termbackup/models.py` and `termbackup/cli.py` -/

/-- Embedding of `models.Profile` (models.py lines 14-31): exactly the
fields the pydantic model declares.  It declares no `signing_public_key`
and no `signing_private_key_enc` field. -/
structure Profile where
  name : String
  source_dir : String
  repo : String
  token_ref : String
  exclude_patterns : List String := []
  created_at : String
  master_key_enc : String
  master_key_salt : String
  recovery_key_enc : String
  recovery_key_salt : String
deriving DecidableEq, Repr

/-- The keyword arguments `cli.init` passes to the `Profile(...)` constructor
(cli.py lines 105-117), including the two signing-key fields. -/
structure ProfileInitArgs where
  name : String
  source_dir : String
  repo : String
  token_ref : String
  created_at : String
  master_key_enc : String
  master_key_salt : String
  recovery_key_enc : String
  recovery_key_salt : String
  signing_public_key : String
  signing_private_key_enc : String
deriving DecidableEq, Repr

/-- Embedding of the `Profile(...)` construction in `cli.init`: pydantic v2
with the model's default `extra='ignore'` configuration keeps exactly the
declared fields and silently discards every other keyword argument, so the
two signing-key arguments do not reach the constructed value. -/
def profileFromInit (a : ProfileInitArgs) : Profile :=
  { name := a.name,
    source_dir := a.source_dir,
    repo := a.repo,
    token_ref := a.token_ref,
    exclude_patterns := [],
    created_at := a.created_at,
    master_key_enc := a.master_key_enc,
    master_key_salt := a.master_key_salt,
    recovery_key_enc := a.recovery_key_enc,
    recovery_key_salt := a.recovery_key_salt }

/-! ### Auxiliary definitions for stating and witnessing the properties -/

/-- Concrete stand-in AEAD encryption primitive used to witness theorems
that are universally quantified over the primitive: append a 16-byte tag of
zeros. -/
def toyEnc (nonce key data : List Nat) : List Nat :=
  data ++ List.replicate 16 0

/-- Concrete stand-in AEAD decryption primitive matching `toyEnc`. -/
def toyDec (nonce key ct : List Nat) : Option (List Nat) :=
  if ct.drop (ct.length - 16) = List.replicate 16 0 then some (ct.take (ct.length - 16))
  else none

/-- Concrete stand-in signing primitive: a constant 64-byte signature, the
length an Ed25519 signature has. -/
def toySign (data : List Nat) : List Nat := List.replicate 64 1

/-- A stand-in AEAD decryption primitive that always rejects (tag mismatch
on every input). -/
def toyDecFail (nonce key ct : List Nat) : Option (List Nat) := none

/-- Paths of a fingerprint list. -/
def pathsOf (l : List FileFingerprint) : List String := l.map (·.relative_path)

/-- The delta partition law, as the spec states it, about a `DeltaResult`
produced from `current` and `parent`: every current path is in exactly one
of added/modified/unchanged and not in deleted; every parent path missing
from current is in deleted and nowhere else; every bucket path comes from
current or parent; unchanged entries have a hash-identical entry in parent. -/
def DeltaPartitionSpec (current parent : List FileFingerprint) (d : DeltaResult) : Prop :=
  (∀ p, p ∈ pathsOf current →
    ((p ∈ pathsOf d.added ∧ p ∉ pathsOf d.modified ∧ p ∉ pathsOf d.unchanged) ∨
     (p ∉ pathsOf d.added ∧ p ∈ pathsOf d.modified ∧ p ∉ pathsOf d.unchanged) ∨
     (p ∉ pathsOf d.added ∧ p ∉ pathsOf d.modified ∧ p ∈ pathsOf d.unchanged))
    ∧ p ∉ pathsOf d.deleted)
  ∧ (∀ p, p ∈ pathsOf parent → p ∉ pathsOf current →
      p ∈ pathsOf d.deleted ∧ p ∉ pathsOf d.added ∧ p ∉ pathsOf d.modified
        ∧ p ∉ pathsOf d.unchanged)
  ∧ (∀ p, (p ∈ pathsOf d.added ∨ p ∈ pathsOf d.modified ∨ p ∈ pathsOf d.deleted
        ∨ p ∈ pathsOf d.unchanged) →
      p ∈ pathsOf current ∨ p ∈ pathsOf parent)
  ∧ (∀ fp ∈ d.unchanged,
      ∃ pfp ∈ parent, pfp.relative_path = fp.relative_path ∧ pfp.sha256 = fp.sha256)

/-! ### Theorems -/

/-- C3: for every plaintext `p` and 32-byte key `k`, decrypting the result
of encrypting `p` under `k` with the same key returns `p`.  The AES-256-GCM
primitive is universally quantified, assumed to invert itself on matching
nonce/key and to add a 16-byte tag; the wrapper `encrypt` prepends the
12-byte nonce and `decrypt` splits it back off. -/
theorem C3_aead_round_trip
    (primEnc : List Nat → List Nat → List Nat → List Nat)
    (primDec : List Nat → List Nat → List Nat → Option (List Nat))
    (p k nonce : List Nat)
    (hkey : k.length = 32)
    (hnonce : nonce.length = 12)
    (hlen : (primEnc nonce k p).length = p.length + 16)
    (hinv : primDec nonce k (primEnc nonce k p) = some p) :
    encrypt primEnc nonce p k = .ok (nonce ++ primEnc nonce k p)
    ∧ decrypt primDec (nonce ++ primEnc nonce k p) k = .ok p := by
  constructor
  · simp [encrypt, KEY_LEN, hkey]
  · have hshort : ¬ ((nonce ++ primEnc nonce k p).length < NONCE_LEN + 16) := by
      simp only [List.length_append, hnonce, hlen, NONCE_LEN]
      omega
    have hkeyok : ¬ (k.length ≠ KEY_LEN) := by simp [hkey, KEY_LEN]
    have htake : (nonce ++ primEnc nonce k p).take NONCE_LEN = nonce :=
      List.take_left' hnonce
    have hdrop : (nonce ++ primEnc nonce k p).drop NONCE_LEN = primEnc nonce k p :=
      List.drop_left' hnonce
    simp only [decrypt, if_neg hshort, if_neg hkeyok, htake, hdrop, hinv]

/-- Witness for C3 at a concrete plaintext, key and nonce, with the
stand-in primitives `toyEnc`/`toyDec`. -/
theorem C3_aead_round_trip_witness :
    encrypt toyEnc (List.replicate 12 0) [1, 2, 3] (List.replicate 32 7)
      = .ok (List.replicate 12 0 ++ toyEnc (List.replicate 12 0) (List.replicate 32 7) [1, 2, 3])
    ∧ decrypt toyDec
        (List.replicate 12 0 ++ toyEnc (List.replicate 12 0) (List.replicate 32 7) [1, 2, 3])
        (List.replicate 32 7) = .ok [1, 2, 3] :=
  C3_aead_round_trip toyEnc toyDec [1, 2, 3] (List.replicate 32 7) (List.replicate 12 0)
    (by decide) (by decide) (by decide) (by decide)

/-- C9: `decrypt` fails with `DecryptionError` on a payload shorter than 28
bytes — and does so identically for every AEAD primitive, i.e. before the
primitive is invoked — or when the primitive rejects the tag; when the
primitive accepts, it returns the plaintext. -/
theorem C9_decrypt_error_paths
    (primDec primDec' : List Nat → List Nat → List Nat → Option (List Nat))
    (payload k pt : List Nat) :
    (payload.length < 28 →
      decrypt primDec payload k = .error (.decryptionError "Payload too short.")
      ∧ decrypt primDec payload k = decrypt primDec' payload k)
    ∧ (28 ≤ payload.length → k.length = 32 →
      primDec (payload.take 12) k (payload.drop 12) = none →
      decrypt primDec payload k
        = .error (.decryptionError "Decryption failed. Invalid key or corrupted data."))
    ∧ (28 ≤ payload.length → k.length = 32 →
      primDec (payload.take 12) k (payload.drop 12) = some pt →
      decrypt primDec payload k = .ok pt) := by
  refine ⟨fun hshort => ?_, fun hlong hk hfail => ?_, fun hlong hk hok => ?_⟩
  · have h : payload.length < NONCE_LEN + 16 := by simp only [NONCE_LEN]; omega
    simp [decrypt, if_pos h]
  · have h : ¬ (payload.length < NONCE_LEN + 16) := by simp only [NONCE_LEN]; omega
    have hkeyok : ¬ (k.length ≠ KEY_LEN) := by simp [hk, KEY_LEN]
    simp only [decrypt, if_neg h, if_neg hkeyok, NONCE_LEN, hfail]
    rw [if_neg (by omega : ¬ payload.length < 12 + 16)]
  · have h : ¬ (payload.length < NONCE_LEN + 16) := by simp only [NONCE_LEN]; omega
    have hkeyok : ¬ (k.length ≠ KEY_LEN) := by simp [hk, KEY_LEN]
    simp only [decrypt, if_neg h, if_neg hkeyok, NONCE_LEN, hok]
    rw [if_neg (by omega : ¬ payload.length < 12 + 16)]

/-- Witness for C9: a 3-byte payload is rejected as too short under any
primitive, a 28-byte payload is rejected when the primitive rejects, and
accepted with the primitive's plaintext when it accepts. -/
theorem C9_decrypt_error_paths_witness :
    decrypt toyDecFail [1, 2, 3] (List.replicate 32 0)
      = .error (.decryptionError "Payload too short.")
    ∧ decrypt toyDecFail (List.replicate 28 0) (List.replicate 32 0)
      = .error (.decryptionError "Decryption failed. Invalid key or corrupted data.")
    ∧ decrypt toyDec (List.replicate 28 0) (List.replicate 32 0) = .ok [] :=
  ⟨((C9_decrypt_error_paths toyDecFail toyDecFail [1, 2, 3] (List.replicate 32 0) []).1
      (by decide)).1,
   (C9_decrypt_error_paths toyDecFail toyDecFail (List.replicate 28 0)
      (List.replicate 32 0) []).2.1 (by decide) (by decide) (by decide),
   (C9_decrypt_error_paths toyDec toyDec (List.replicate 28 0)
      (List.replicate 32 0) []).2.2 (by decide) (by decide) (by decide)⟩

/-- C10: a key that is not exactly 32 bytes makes `decrypt` fail with a
`DecryptionError` (never an `EncryptionError`, never a plaintext), and the
result does not depend on the AEAD primitive at all — the guard fires before
the primitive is invoked.  When the payload is additionally underlength the
message is the underlength one, which is still a `DecryptionError`. -/
theorem C10_decrypt_key_length_guard
    (primDec primDec' : List Nat → List Nat → List Nat → Option (List Nat))
    (payload k : List Nat) (hk : k.length ≠ 32) :
    decrypt primDec payload k
      = .error (.decryptionError
          (if payload.length < 28 then "Payload too short." else "Invalid key length."))
    ∧ decrypt primDec payload k = decrypt primDec' payload k := by
  by_cases hshort : payload.length < 28
  · have h : payload.length < NONCE_LEN + 16 := by simp only [NONCE_LEN]; omega
    simp [decrypt, if_pos h, if_pos hshort]
  · have h : ¬ (payload.length < NONCE_LEN + 16) := by simp only [NONCE_LEN]; omega
    have hkeybad : k.length ≠ KEY_LEN := by simpa [KEY_LEN] using hk
    simp [decrypt, if_neg h, if_pos hkeybad, if_neg hshort]

/-- Witness for C10: a 33-byte key on a long-enough payload yields the
key-length `DecryptionError` under the always-accepting primitive. -/
theorem C10_decrypt_key_length_guard_witness :
    decrypt toyDec (List.replicate 28 0) (List.replicate 33 0)
      = .error (.decryptionError "Invalid key length.")
    ∧ decrypt toyDec (List.replicate 28 0) (List.replicate 33 0)
      = decrypt toyDecFail (List.replicate 28 0) (List.replicate 33 0) :=
  C10_decrypt_key_length_guard toyDec toyDecFail (List.replicate 28 0)
    (List.replicate 33 0) (by decide)

/-- C2: the emitted container is exactly the 4-byte magic, the 12-byte
nonce, the 2-byte big-endian signature length, the signature — computed over
the encrypted payload, not the plaintext — and the ciphertext as all
remaining bytes; reading the container back recovers exactly these fields. -/
theorem C2_container_layout
    (primEnc : List Nat → List Nat → List Nat → List Nat)
    (signFn : List Nat → List Nat)
    (dek nonce payload : List Nat)
    (hnonce : nonce.length = 12)
    (hsig : (signFn (primEnc nonce dek payload)).length < 65536) :
    create_snapshot_container primEnc signFn dek nonce payload
      = MAGIC_BYTES ++ nonce
          ++ toBytesBE2 (signFn (primEnc nonce dek payload)).length
          ++ signFn (primEnc nonce dek payload)
          ++ primEnc nonce dek payload
    ∧ read_snapshot_container (create_snapshot_container primEnc signFn dek nonce payload)
      = .ok (nonce, signFn (primEnc nonce dek payload), primEnc nonce dek payload) := by
  refine ⟨rfl, ?_⟩
  set ct := primEnc nonce dek payload with hct
  set sig := signFn ct with hsigdef
  have hassoc : create_snapshot_container primEnc signFn dek nonce payload
      = MAGIC_BYTES ++ (nonce ++ (toBytesBE2 sig.length ++ (sig ++ ct))) := by
    simp [create_snapshot_container, List.append_assoc]
  have hmagiclen : MAGIC_BYTES.length = 4 := by decide
  have htake4 : (MAGIC_BYTES ++ (nonce ++ (toBytesBE2 sig.length ++ (sig ++ ct)))).take
      MAGIC_BYTES.length = MAGIC_BYTES := List.take_left _ _
  have hdrop4 : (MAGIC_BYTES ++ (nonce ++ (toBytesBE2 sig.length ++ (sig ++ ct)))).drop
      MAGIC_BYTES.length = nonce ++ (toBytesBE2 sig.length ++ (sig ++ ct)) :=
    List.drop_left _ _
  have hdrop12 : (nonce ++ (toBytesBE2 sig.length ++ (sig ++ ct))).drop 12
      = toBytesBE2 sig.length ++ (sig ++ ct) := List.drop_left' hnonce
  have htake12 : (nonce ++ (toBytesBE2 sig.length ++ (sig ++ ct))).take 12 = nonce :=
    List.take_left' hnonce
  have hbe2len : (toBytesBE2 sig.length).length = 2 := rfl
  have htake2 : (toBytesBE2 sig.length ++ (sig ++ ct)).take 2 = toBytesBE2 sig.length :=
    List.take_left' hbe2len
  have hdrop2 : (toBytesBE2 sig.length ++ (sig ++ ct)).drop 2 = sig ++ ct :=
    List.drop_left' hbe2len
  have hfrom : fromBytesBE [sig.length / 256 % 256, sig.length % 256] = sig.length := by
    simp only [fromBytesBE, List.foldl]
    omega
  have htakesig : (sig ++ ct).take sig.length = sig := List.take_left _ _
  have hdropsig : (sig ++ ct).drop sig.length = ct := List.drop_left _ _
  rw [hassoc]
  simp only [read_snapshot_container, htake4, hdrop4, hdrop12, htake12, htake2, hdrop2,
    if_neg (by simp : ¬ (MAGIC_BYTES ≠ MAGIC_BYTES))]
  simp only [toBytesBE2, hfrom, htakesig, hdropsig]

/-- Witness for C2 at a concrete payload, nonce and DEK with the stand-in
primitives. -/
theorem C2_container_layout_witness :
    create_snapshot_container toyEnc toySign (List.replicate 32 0) (List.replicate 12 5) [9, 9]
      = MAGIC_BYTES ++ List.replicate 12 5
          ++ toBytesBE2 (toySign (toyEnc (List.replicate 12 5) (List.replicate 32 0) [9, 9])).length
          ++ toySign (toyEnc (List.replicate 12 5) (List.replicate 32 0) [9, 9])
          ++ toyEnc (List.replicate 12 5) (List.replicate 32 0) [9, 9]
    ∧ read_snapshot_container
        (create_snapshot_container toyEnc toySign (List.replicate 32 0) (List.replicate 12 5) [9, 9])
      = .ok (List.replicate 12 5,
             toySign (toyEnc (List.replicate 12 5) (List.replicate 32 0) [9, 9]),
             toyEnc (List.replicate 12 5) (List.replicate 32 0) [9, 9]) :=
  C2_container_layout toyEnc toySign (List.replicate 32 0) (List.replicate 12 5) [9, 9]
    (by decide) (by decide)

/-- C1: the traversal defense of `restore_snapshot` does not require
members to be strict descendants of the target directory — `validate_path`
compares rendered path *strings* with `startswith`, so with target
`/tmp/t` the member `../te/x`, which resolves to the sibling path
`/tmp/te/x` outside the target, passes the check, and the restore loop
writes its file at that outside path instead of skipping it. -/
theorem C1_startswith_check_admits_escape :
    validate_path ["tmp", "t", "..", "te", "x"] ["tmp", "t"] = some ["tmp", "te", "x"]
    ∧ isStrictDescendant ["tmp", "te", "x"] ["tmp", "t"] = false
    ∧ restore_extract ["tmp", "t"] false { files := [], dirs := [] }
        [{ name := ["..", "te", "x"], isDir := false, content := [65], mtime := 0 }]
      = .ok { files := [(["tmp", "te", "x"], [65])], dirs := [["tmp"], ["tmp", "te"]] }
    ∧ fsExists { files := [(["tmp", "te", "x"], [65])], dirs := [["tmp"], ["tmp", "te"]] }
        ["tmp", "te", "x"] = true := by
  refine ⟨by decide, by decide, rfl, by decide⟩

/-- Monotonicity of the file map under a write: existing keys stay. -/
theorem writeFileList_any_mono (files : List (AbsPath × List Nat)) (p q : AbsPath)
    (c : List Nat) (h : files.any (fun e => e.1 = q) = true) :
    (writeFileList files p c).any (fun e => e.1 = q) = true := by
  induction files with
  | nil => simp at h
  | cons e rest ih =>
    simp only [List.any_cons, Bool.or_eq_true, decide_eq_true_eq] at h
    by_cases hep : e.1 = p
    · simp only [writeFileList, if_pos hep, List.any_cons, Bool.or_eq_true, decide_eq_true_eq]
      rcases h with h | h
      · left; rw [← hep, h]
      · right; exact h
    · simp only [writeFileList, if_neg hep, List.any_cons, Bool.or_eq_true, decide_eq_true_eq]
      rcases h with h | h
      · left; exact h
      · right; exact ih h

/-- A path that exists keeps existing after a file write. -/
theorem fsExists_write_mono (fs : FS) (p q : AbsPath) (c : List Nat)
    (h : fsExists fs q = true) : fsExists (fsWriteFile fs p c) q = true := by
  simp only [fsExists, fsWriteFile, Bool.or_eq_true] at h ⊢
  rcases h with h | h
  · exact Or.inl (writeFileList_any_mono fs.files p q c h)
  · exact Or.inr h

/-- A path that exists keeps existing after a `mkdir`. -/
theorem fsExists_mkdir_mono (fs : FS) (p q : AbsPath)
    (h : fsExists fs q = true) : fsExists (fsMkdir fs p) q = true := by
  simp only [fsExists, fsMkdir, Bool.or_eq_true] at h ⊢
  split
  · exact h
  · rcases h with h | h
    · exact Or.inl h
    · refine Or.inr ?_
      simp only [List.any_append, Bool.or_eq_true]
      exact Or.inl h

/-- A path that exists keeps existing after a chain of `mkdir`s. -/
theorem fsExists_mkdirList_mono (l : List AbsPath) :
    ∀ (fs : FS) (q : AbsPath), fsExists fs q = true →
    fsExists (l.foldl fsMkdir fs) q = true := by
  induction l with
  | nil => intro fs q h; exact h
  | cons a rest ih =>
    intro fs q h
    exact ih (fsMkdir fs a) q (fsExists_mkdir_mono fs a q h)

/-- A path that exists keeps existing after creating parent directories. -/
theorem fsExists_mkdirParents_mono (fs : FS) (p q : AbsPath)
    (h : fsExists fs q = true) : fsExists (mkdirParents fs p) q = true :=
  fsExists_mkdirList_mono (ancestors p.dropLast) fs q h

/-- Extracting one member never removes an existing path. -/
theorem extractMember_mono {target : AbsPath} {ow : Bool} {fs fs' : FS} {m : TarMember}
    (h : extractMember target ow fs m = .ok fs') (q : AbsPath)
    (hq : fsExists fs q = true) : fsExists fs' q = true := by
  unfold extractMember at h
  split at h
  · cases h; exact hq
  · split at h
    · cases h; exact hq
    · split at h
      · cases h
      · split at h
        · cases h
          exact fsExists_mkdir_mono _ _ _ (fsExists_mkdirParents_mono fs _ q hq)
        · cases h
          exact fsExists_write_mono _ _ _ _ (fsExists_mkdirParents_mono fs _ q hq)

/-- With `overwrite = true` extracting one member always succeeds. -/
theorem extractMember_overwrite_ok (target : AbsPath) (fs : FS) (m : TarMember) :
    ∃ fs', extractMember target true fs m = .ok fs' := by
  unfold extractMember
  split
  · exact ⟨fs, rfl⟩
  · split
    · exact ⟨fs, rfl⟩
    · rename_i d _
      split
      · rename_i hcond
        exact absurd hcond.2 (by simp)
      · split
        · exact ⟨_, rfl⟩
        · exact ⟨_, rfl⟩

/-- With `overwrite = true` the whole extraction loop always succeeds. -/
theorem restore_overwrite_ok (target : AbsPath) (members : List TarMember) :
    ∀ fs : FS, ∃ fs', restore_extract target true fs members = .ok fs' := by
  induction members with
  | nil => intro fs; exact ⟨fs, rfl⟩
  | cons m rest ih =>
    intro fs
    obtain ⟨fs1, h1⟩ := extractMember_overwrite_ok target fs m
    obtain ⟨fs2, h2⟩ := ih fs1
    refine ⟨fs2, ?_⟩
    simp only [restore_extract, List.foldlM_cons, h1]
    exact h2

/-- A member whose accepted destination already exists aborts extraction
when `overwrite` is false, wherever it occurs in the member list. -/
theorem restore_abort_of_exists (target : AbsPath) (m : TarMember) (d : AbsPath)
    (hmeta : m.name ≠ metaName)
    (hval : validate_path (target ++ m.name) target = some d) :
    ∀ (pre : List TarMember) (fs : FS), fsExists fs d = true →
    (restore_extract target false fs (pre ++ [m])).isOk = false := by
  intro pre
  induction pre with
  | nil =>
    intro fs hex
    have habort : extractMember target false fs m
        = .error "File already exists. Use overwrite=True." := by
      unfold extractMember
      rw [if_neg hmeta, hval]
      exact if_pos ⟨hex, rfl⟩
    simp only [List.nil_append, restore_extract, List.foldlM_cons, habort]
    rfl
  | cons a rest ih =>
    intro fs hex
    simp only [List.cons_append, restore_extract, List.foldlM_cons]
    cases ha : extractMember target false fs a with
    | error e => rfl
    | ok fs1 =>
      have hex1 : fsExists fs1 d = true := extractMember_mono ha d hex
      exact ih fs1 hex1

/-- Looking up a path right after writing it returns the written content. -/
theorem writeFileList_lookup (files : List (AbsPath × List Nat)) (p : AbsPath)
    (c : List Nat) :
    ((writeFileList files p c).find? (fun e => e.1 = p)).map (·.2) = some c := by
  induction files with
  | nil => simp [writeFileList, List.find?]
  | cons e rest ih =>
    by_cases hep : e.1 = p
    · simp [writeFileList, if_pos hep, List.find?]
    · simp only [writeFileList, if_neg hep, List.find?_cons, decide_eq_false hep]
      exact ih

/-- Same fact at the `FS` level. -/
theorem fsLookup_write (fs : FS) (p : AbsPath) (c : List Nat) :
    fsLookup (fsWriteFile fs p c) p = some c :=
  writeFileList_lookup fs.files p c

/-- Extracting a validated file member with `overwrite = true` writes its
content at its destination. -/
theorem extractMember_writes (target : AbsPath) (fs : FS) (m : TarMember) (d : AbsPath)
    (hmeta : m.name ≠ metaName)
    (hval : validate_path (target ++ m.name) target = some d)
    (hfile : m.isDir = false) :
    extractMember target true fs m = .ok (fsWriteFile (mkdirParents fs d) d m.content) := by
  unfold extractMember
  rw [if_neg hmeta, hval]
  show (if fsExists fs d = true ∧ (true = false) then
      (Except.error "File already exists. Use overwrite=True." : Except String FS)
    else
      if m.isDir = true then Except.ok (fsMkdir (mkdirParents fs d) d)
      else Except.ok (fsWriteFile (mkdirParents fs d) d m.content)) = _
  rw [if_neg (by simp), if_neg (by simp [hfile])]

/-- C7: when a member's destination already exists, a restore with
`overwrite = false` aborts as a whole, while a restore with
`overwrite = true` succeeds and the destination ends up holding the
member's content (the member being the last archive entry writing it). -/
theorem C7_overwrite_policy (target : AbsPath) (fs : FS) (pre : List TarMember)
    (m : TarMember) (d : AbsPath)
    (hmeta : m.name ≠ metaName)
    (hval : validate_path (target ++ m.name) target = some d)
    (hex : fsExists fs d = true)
    (hfile : m.isDir = false) :
    (restore_extract target false fs (pre ++ [m])).isOk = false
    ∧ (restore_extract target true fs (pre ++ [m])).isOk = true
    ∧ restoredContent target fs (pre ++ [m]) d = some m.content := by
  obtain ⟨fs1, h1⟩ := restore_overwrite_ok target pre fs
  have h2 : extractMember target true fs1 m
      = .ok (fsWriteFile (mkdirParents fs1 d) d m.content) :=
    extractMember_writes target fs1 m d hmeta hval hfile
  have hfull : restore_extract target true fs (pre ++ [m])
      = .ok (fsWriteFile (mkdirParents fs1 d) d m.content) := by
    simp only [restore_extract, List.foldlM_append]
    rw [show List.foldlM (extractMember target true) fs pre = Except.ok fs1 from h1]
    show restore_extract target true fs1 [m] = _
    simp only [restore_extract, List.foldlM_cons, h2]
    rfl
  refine ⟨restore_abort_of_exists target m d hmeta hval pre fs hex, ?_, ?_⟩
  · rw [hfull]; rfl
  · rw [restoredContent, hfull]
    exact fsLookup_write _ d m.content

/-- Witness for C7: restoring the single member `file1.txt` into a target
already holding `/tmp/t/file1.txt` fails without `overwrite` and replaces
the content with it. -/
theorem C7_overwrite_policy_witness :
    (restore_extract ["tmp", "t"] false
        { files := [(["tmp", "t", "file1.txt"], [66])], dirs := [] }
        [{ name := ["file1.txt"], isDir := false, content := [65], mtime := 0 }]).isOk = false
    ∧ (restore_extract ["tmp", "t"] true
        { files := [(["tmp", "t", "file1.txt"], [66])], dirs := [] }
        [{ name := ["file1.txt"], isDir := false, content := [65], mtime := 0 }]).isOk = true
    ∧ restoredContent ["tmp", "t"]
        { files := [(["tmp", "t", "file1.txt"], [66])], dirs := [] }
        [{ name := ["file1.txt"], isDir := false, content := [65], mtime := 0 }]
        ["tmp", "t", "file1.txt"] = some [65] :=
  C7_overwrite_policy ["tmp", "t"]
    { files := [(["tmp", "t", "file1.txt"], [66])], dirs := [] } []
    { name := ["file1.txt"], isDir := false, content := [65], mtime := 0 }
    ["tmp", "t", "file1.txt"] (by decide) (by decide) (by decide) rfl

/-- C5: `append_entry` returns a manifest holding exactly the input's
entries plus the new one (the input value itself is never mutated — the
embedding is a pure function, mirroring the source's copy-then-append), its
entry list sorted by `snapshot_id` whatever the insertion order, and the
version unchanged. -/
theorem C5_append_entry_ordered (m : Manifest) (e : ManifestEntry) :
    (append_entry m e).entries.Perm (m.entries ++ [e])
    ∧ (append_entry m e).entries.Pairwise (fun a b => a.snapshot_id ≤ b.snapshot_id)
    ∧ (append_entry m e).version = m.version := by
  refine ⟨List.mergeSort_perm _ _, ?_, rfl⟩
  have htrans : ∀ (a b c : ManifestEntry),
      entryLe a b = true → entryLe b c = true → entryLe a c = true := by
    intro a b c hab hbc
    simp only [entryLe, decide_eq_true_eq] at hab hbc ⊢
    exact le_trans hab hbc
  have htotal : ∀ (a b : ManifestEntry), (entryLe a b || entryLe b a) = true := by
    intro a b
    simp only [entryLe, Bool.or_eq_true, decide_eq_true_eq]
    exact le_total _ _
  have hs := List.sorted_mergeSort htrans htotal (m.entries ++ [e])
  exact hs.imp (fun hab => by simpa [entryLe] using hab)

/-- Length law for the `verify_integrity` loop: one violation per duplicate
id plus one per entry failing the hash-shape test. -/
theorem verifyGo_length (l : List ManifestEntry) :
    ∀ seen : List String, (verifyGo seen l).length
      = dupFlagCount seen l + (l.filter (fun e => decide (malformedHash e))).length := by
  induction l with
  | nil => intro seen; rfl
  | cons e rest ih =>
    intro seen
    by_cases hdup : e.snapshot_id ∈ seen <;> by_cases hmal : malformedHash e <;>
      simp [verifyGo, dupFlagCount, List.filter_cons, hdup, hmal, ih] <;> omega

/-- Emptiness law for the `verify_integrity` loop. -/
theorem verifyGo_eq_nil_iff (l : List ManifestEntry) :
    ∀ seen : List String, verifyGo seen l = [] ↔
      ((∀ e ∈ l, ¬ malformedHash e)
        ∧ (l.map (·.snapshot_id)).Nodup
        ∧ ∀ s ∈ seen, s ∉ l.map (·.snapshot_id)) := by
  induction l with
  | nil => intro seen; simp [verifyGo]
  | cons e rest ih =>
    intro seen
    constructor
    · intro hnil
      simp only [verifyGo, List.append_eq_nil] at hnil
      obtain ⟨⟨h1, h2⟩, h3⟩ := hnil
      have hdup : e.snapshot_id ∉ seen := by
        intro hmem
        rw [if_pos hmem] at h1
        exact List.cons_ne_nil _ _ h1
      have hmal : ¬ malformedHash e := by
        intro hm
        rw [if_pos hm] at h2
        exact List.cons_ne_nil _ _ h2
      obtain ⟨hmalrest, hnodup, hseen⟩ := (ih (seen ++ [e.snapshot_id])).mp h3
      refine ⟨?_, ?_, ?_⟩
      · intro x hx
        rcases List.mem_cons.mp hx with hx | hx
        · rw [hx]; exact hmal
        · exact hmalrest x hx
      · rw [List.map_cons, List.nodup_cons]
        refine ⟨?_, hnodup⟩
        exact hseen e.snapshot_id (List.mem_append.mpr (Or.inr (List.mem_singleton.mpr rfl)))
      · intro s hs
        rw [List.map_cons, List.mem_cons]
        rintro (hcase | hcase)
        · rw [hcase] at hs; exact hdup hs
        · exact hseen s (List.mem_append.mpr (Or.inl hs)) hcase
    · rintro ⟨hmalall, hnodup, hseen⟩
      rw [List.map_cons, List.nodup_cons] at hnodup
      have hdup : e.snapshot_id ∉ seen := by
        intro hmem
        have := hseen e.snapshot_id hmem
        rw [List.map_cons] at this
        exact this (List.mem_cons_self _ _)
      have hmal : ¬ malformedHash e := hmalall e (List.mem_cons_self _ _)
      simp only [verifyGo, List.append_eq_nil, if_neg hdup, if_neg hmal]
      refine ⟨⟨by trivial, by trivial⟩, ?_⟩
      refine (ih (seen ++ [e.snapshot_id])).mpr ⟨?_, hnodup.2, ?_⟩
      · intro x hx
        exact hmalall x (List.mem_cons_of_mem e hx)
      · intro s hs
        rcases List.mem_append.mp hs with hs | hs
        · intro hmem
          have := hseen s hs
          rw [List.map_cons] at this
          exact this (List.mem_cons_of_mem _ hmem)
        · rw [List.mem_singleton.mp hs]
          exact hnodup.1

/-- C6 (amended): `verify_integrity` yields one violation per duplicate
snapshot id plus one per entry whose hash is empty or not 64 characters
long, and returns the empty list exactly when there are no duplicate ids
and every hash passes that length test (in particular for well-formed
64-hex hashes). -/
theorem C6_verify_integrity_length_check (m : Manifest) :
    (verify_integrity m).length
      = dupFlagCount [] m.entries
        + (m.entries.filter (fun e => decide (malformedHash e))).length
    ∧ (verify_integrity m = [] ↔
        ((m.entries.map (·.snapshot_id)).Nodup ∧ ∀ e ∈ m.entries, ¬ malformedHash e)) := by
  refine ⟨verifyGo_length m.entries [], ?_⟩
  rw [verify_integrity, verifyGo_eq_nil_iff]
  constructor
  · rintro ⟨ha, hb, _⟩
    exact ⟨hb, ha⟩
  · rintro ⟨hb, ha⟩
    exact ⟨ha, hb, by intro s hs; cases hs⟩

/-- Counterexample to C6 as stated: a 64-character non-hexadecimal content
hash (64 times `z`) receives no violation from `verify_integrity`, though
the claim demands one for every hash that is not 64 *hexadecimal*
characters. -/
theorem C6_counterexample :
    verify_integrity
      { version := "1.0",
        entries := [{ snapshot_id := "20240101_000000",
                      filename := "snapshot_20240101_000000.tbk",
                      sha256 := String.mk (List.replicate 64 'z'), size := 1,
                      uploaded_at := "2024-01-01T00:00:00Z" }] } = []
    ∧ isHex64 (String.mk (List.replicate 64 'z')) = false := by
  exact ⟨by decide, by decide⟩

/-- Keys after a dict insertion: the old keys plus the inserted one. -/
theorem dictInsert_keys (m : List (String × FileFingerprint)) (k : String)
    (v : FileFingerprint) (q : String) :
    (∃ e ∈ dictInsert m k v, e.1 = q) ↔ (∃ e ∈ m, e.1 = q) ∨ q = k := by
  unfold dictInsert
  split
  · rename_i hany
    rw [List.any_eq_true] at hany
    obtain ⟨w, hw, hwk⟩ := hany
    rw [decide_eq_true_eq] at hwk
    constructor
    · rintro ⟨e, he, heq⟩
      rw [List.mem_map] at he
      obtain ⟨e0, he0, hfe⟩ := he
      left
      refine ⟨e0, he0, ?_⟩
      by_cases h0 : e0.1 = k
      · rw [if_pos h0] at hfe
        rw [← hfe] at heq
        rw [h0]
        exact heq
      · rw [if_neg h0] at hfe
        rw [hfe]
        exact heq
    · rintro (⟨e, he, heq⟩ | hqk)
      · by_cases h0 : e.1 = k
        · refine ⟨(k, v), ?_, ?_⟩
          · rw [List.mem_map]
            exact ⟨e, he, by rw [if_pos h0]⟩
          · rw [← heq, h0]
        · refine ⟨e, ?_, heq⟩
          rw [List.mem_map]
          exact ⟨e, he, by rw [if_neg h0]⟩
      · refine ⟨(k, v), ?_, hqk.symm⟩
        rw [List.mem_map]
        exact ⟨w, hw, by rw [if_pos hwk]⟩
  · constructor
    · rintro ⟨e, he, heq⟩
      rcases List.mem_append.mp he with he | he
      · exact Or.inl ⟨e, he, heq⟩
      · right
        rw [List.mem_singleton.mp he] at heq
        exact heq.symm
    · rintro (⟨e, he, heq⟩ | hqk)
      · exact ⟨e, List.mem_append.mpr (Or.inl he), heq⟩
      · exact ⟨(k, v), List.mem_append.mpr (Or.inr (List.mem_singleton.mpr rfl)), hqk.symm⟩

/-- Keys of the dict built from a fingerprint list. -/
theorem dictOfList_keys (l : List FileFingerprint) :
    ∀ (m : List (String × FileFingerprint)) (q : String),
    (∃ e ∈ dictOfList m l, e.1 = q) ↔ (∃ e ∈ m, e.1 = q) ∨ q ∈ l.map (·.relative_path) := by
  induction l with
  | nil => intro m q; simp [dictOfList]
  | cons fp rest ih =>
    intro m q
    rw [show dictOfList m (fp :: rest) = dictOfList (dictInsert m fp.relative_path fp) rest
      from rfl]
    rw [ih, dictInsert_keys]
    simp only [List.map_cons, List.mem_cons]
    rw [or_assoc]

/-- Every entry of a dict insertion came from the dict or is the pair
inserted. -/
theorem dictInsert_entries (m : List (String × FileFingerprint)) (k : String)
    (v : FileFingerprint) (e : String × FileFingerprint)
    (he : e ∈ dictInsert m k v) : e ∈ m ∨ e = (k, v) := by
  unfold dictInsert at he
  split at he
  · rw [List.mem_map] at he
    obtain ⟨e0, he0, hfe⟩ := he
    by_cases h0 : e0.1 = k
    · rw [if_pos h0] at hfe
      exact Or.inr hfe.symm
    · rw [if_neg h0] at hfe
      rw [← hfe]
      exact Or.inl he0
  · rcases List.mem_append.mp he with h | h
    · exact Or.inl h
    · exact Or.inr (List.mem_singleton.mp h)

/-- Every entry of the built dict keys one of the folded fingerprints by
its relative path. -/
theorem dictOfList_entries (l : List FileFingerprint) :
    ∀ (m : List (String × FileFingerprint)) (e : String × FileFingerprint),
    e ∈ dictOfList m l → e ∈ m ∨ (e.2 ∈ l ∧ e.1 = e.2.relative_path) := by
  induction l with
  | nil => intro m e he; exact Or.inl he
  | cons fp rest ih =>
    intro m e he
    rcases ih (dictInsert m fp.relative_path fp) e he with hc | hc
    · rcases dictInsert_entries _ _ _ _ hc with hc | hc
      · exact Or.inl hc
      · right
        rw [hc]
        exact ⟨List.mem_cons_self _ _, rfl⟩
    · right
      exact ⟨List.mem_cons_of_mem _ hc.1, hc.2⟩

/-- Entries of `parent_map` are parent fingerprints keyed by their path. -/
theorem parent_map_entries (ps : List FileFingerprint) (e : String × FileFingerprint)
    (he : e ∈ parent_map ps) : e.2 ∈ ps ∧ e.1 = e.2.relative_path := by
  rcases dictOfList_entries ps [] e he with h | h
  · cases h
  · exact h

/-- A dict lookup succeeds exactly when some entry has the key. -/
theorem dictLookup_isSome_iff (m : List (String × FileFingerprint)) (q : String) :
    (dictLookup m q).isSome = true ↔ ∃ e ∈ m, e.1 = q := by
  simp [dictLookup, List.find?_isSome]

/-- A successful dict lookup returns a stored entry. -/
theorem dictLookup_eq_some_mem (m : List (String × FileFingerprint)) (q : String)
    (v : FileFingerprint) (h : dictLookup m q = some v) : (q, v) ∈ m := by
  unfold dictLookup at h
  cases hf : m.find? (fun e => e.1 = q) with
  | none => rw [hf] at h; cases h
  | some e =>
    rw [hf] at h
    simp only [Option.map_some'] at h
    have hkey := List.find?_some hf
    rw [decide_eq_true_eq] at hkey
    have hmem := List.mem_of_find?_eq_some hf
    have hpair : e = (q, v) := by
      cases e
      simp only at hkey h
      simp [hkey, Option.some.inj h]
    rw [← hpair]
    exact hmem

/-- `parent_map` lookup succeeds exactly on the parent's paths. -/
theorem parent_map_lookup_isSome (ps : List FileFingerprint) (q : String) :
    (dictLookup (parent_map ps) q).isSome = true ↔ q ∈ ps.map (·.relative_path) := by
  rw [dictLookup_isSome_iff, parent_map, dictOfList_keys]
  simp

/-- A successful `parent_map` lookup returns a parent fingerprint with the
looked-up path. -/
theorem parent_map_lookup_sound (ps : List FileFingerprint) (q : String)
    (v : FileFingerprint) (h : dictLookup (parent_map ps) q = some v) :
    v ∈ ps ∧ v.relative_path = q := by
  have hmem := dictLookup_eq_some_mem _ _ _ h
  have hprop := parent_map_entries ps (q, v) hmem
  exact ⟨hprop.1, hprop.2.symm⟩

/-- Membership among the paths of a filtered fingerprint list. -/
theorem pathsOf_filter_mem (l : List FileFingerprint) (f : FileFingerprint → Bool)
    (p : String) :
    p ∈ pathsOf (l.filter f) ↔ ∃ fp ∈ l, f fp = true ∧ fp.relative_path = p := by
  simp only [pathsOf, List.mem_map, List.mem_filter]
  tauto

/-- `compute_delta` at a nonempty parent list, unfolded to its four
filters. -/
theorem compute_delta_eq_of_ne_nil (current ps : List FileFingerprint)
    (h : ps.isEmpty = false) :
    compute_delta current (some ps)
      = { added := current.filter (fun fp =>
            (dictLookup (parent_map ps) fp.relative_path).isNone),
          modified := current.filter (fun fp =>
            match dictLookup (parent_map ps) fp.relative_path with
            | some pfp => decide (pfp.sha256 ≠ fp.sha256)
            | none => false),
          deleted := ((parent_map ps).filter
            (fun e => ! current.any (fun c => c.relative_path = e.1))).map (·.2),
          unchanged := current.filter (fun fp =>
            match dictLookup (parent_map ps) fp.relative_path with
            | some pfp => decide (pfp.sha256 = fp.sha256)
            | none => false) } := by
  exact if_neg (by simp [h])

/-- C4 (amended): for any current fingerprint list whose entries have
pairwise-distinct paths and any parent fingerprint list, the four buckets
of `compute_delta` partition the union of the current and parent path sets
with no path in two buckets, every current path lands in exactly one of
added/modified/unchanged, every parent-only path lands in deleted,
unchanged entries have a hash-identical parent entry, and an absent parent
classifies every current file as added. -/
theorem C4_delta_partition (current parent : List FileFingerprint)
    (h : (pathsOf current).Nodup) :
    DeltaPartitionSpec current parent (compute_delta current (some parent))
    ∧ compute_delta current none
      = { added := current, modified := [], deleted := [], unchanged := [] } := by
  refine ⟨?_, rfl⟩
  have hinj : ∀ fp1 ∈ current, ∀ fp2 ∈ current,
      fp1.relative_path = fp2.relative_path → fp1 = fp2 := by
    intro fp1 h1 fp2 h2 heq
    exact List.inj_on_of_nodup_map h h1 h2 heq
  cases parent with
  | nil =>
    rw [show compute_delta current (some ([] : List FileFingerprint))
        = { added := current, modified := [], deleted := [], unchanged := [] } from rfl]
    refine ⟨?_, ?_, ?_, ?_⟩
    · intro p hp
      exact ⟨Or.inl ⟨hp, by simp [pathsOf], by simp [pathsOf]⟩, by simp [pathsOf]⟩
    · intro p hp
      simp [pathsOf] at hp
    · intro p hp
      rcases hp with hp | hp | hp | hp
      · exact Or.inl hp
      · simp [pathsOf] at hp
      · simp [pathsOf] at hp
      · simp [pathsOf] at hp
    · intro fp hfp
      exact absurd hfp (List.not_mem_nil fp)
  | cons p0 prest =>
    rw [compute_delta_eq_of_ne_nil current (p0 :: prest) rfl]
    refine ⟨?_, ?_, ?_, ?_⟩
    · -- every current path: exactly one of added/modified/unchanged, never deleted
      intro p hp
      obtain ⟨fp, hfp, hfpp⟩ := List.mem_map.mp hp
      have hnotdel : p ∉ pathsOf (((parent_map (p0 :: prest)).filter
          (fun e => ! current.any (fun c => c.relative_path = e.1))).map (·.2)) := by
        intro hmem
        simp only [pathsOf, List.mem_map] at hmem
        obtain ⟨v, hv, hvp⟩ := hmem
        obtain ⟨e, he, hev⟩ := hv
        obtain ⟨heP, hg⟩ := List.mem_filter.mp he
        have hkey := (parent_map_entries _ e heP).2
        rw [Bool.not_eq_true'] at hg
        rw [List.any_eq_false] at hg
        have hgfp := hg fp hfp
        simp only [decide_eq_true_eq] at hgfp
        apply hgfp
        rw [hkey, hev, hvp, hfpp]
      refine ⟨?_, hnotdel⟩
      cases hlk : dictLookup (parent_map (p0 :: prest)) p with
      | none =>
        left
        refine ⟨?_, ?_, ?_⟩
        · refine (pathsOf_filter_mem _ _ _).mpr ⟨fp, hfp, ?_, hfpp⟩
          rw [hfpp, hlk]
          rfl
        · intro hmem
          obtain ⟨fp', hfp', hpred', hp'⟩ := (pathsOf_filter_mem _ _ _).mp hmem
          have heqfp : fp' = fp := hinj fp' hfp' fp hfp (by rw [hp', hfpp])
          rw [heqfp, hfpp, hlk] at hpred'
          simp at hpred'
        · intro hmem
          obtain ⟨fp', hfp', hpred', hp'⟩ := (pathsOf_filter_mem _ _ _).mp hmem
          have heqfp : fp' = fp := hinj fp' hfp' fp hfp (by rw [hp', hfpp])
          rw [heqfp, hfpp, hlk] at hpred'
          simp at hpred'
      | some pfp =>
        by_cases hsha : pfp.sha256 = fp.sha256
        · right; right
          refine ⟨?_, ?_, ?_⟩
          · intro hmem
            obtain ⟨fp', hfp', hpred', hp'⟩ := (pathsOf_filter_mem _ _ _).mp hmem
            have heqfp : fp' = fp := hinj fp' hfp' fp hfp (by rw [hp', hfpp])
            rw [heqfp, hfpp, hlk] at hpred'
            simp at hpred'
          · intro hmem
            obtain ⟨fp', hfp', hpred', hp'⟩ := (pathsOf_filter_mem _ _ _).mp hmem
            have heqfp : fp' = fp := hinj fp' hfp' fp hfp (by rw [hp', hfpp])
            rw [heqfp, hfpp, hlk] at hpred'
            simp [hsha] at hpred'
          · refine (pathsOf_filter_mem _ _ _).mpr ⟨fp, hfp, ?_, hfpp⟩
            rw [hfpp, hlk]
            simp [hsha]
        · right; left
          refine ⟨?_, ?_, ?_⟩
          · intro hmem
            obtain ⟨fp', hfp', hpred', hp'⟩ := (pathsOf_filter_mem _ _ _).mp hmem
            have heqfp : fp' = fp := hinj fp' hfp' fp hfp (by rw [hp', hfpp])
            rw [heqfp, hfpp, hlk] at hpred'
            simp at hpred'
          · refine (pathsOf_filter_mem _ _ _).mpr ⟨fp, hfp, ?_, hfpp⟩
            rw [hfpp, hlk]
            simp [hsha]
          · intro hmem
            obtain ⟨fp', hfp', hpred', hp'⟩ := (pathsOf_filter_mem _ _ _).mp hmem
            have heqfp : fp' = fp := hinj fp' hfp' fp hfp (by rw [hp', hfpp])
            rw [heqfp, hfpp, hlk] at hpred'
            simp [hsha] at hpred'
    · -- every parent-only path: deleted and nowhere else
      intro p hpp hpc
      have hsome : (dictLookup (parent_map (p0 :: prest)) p).isSome = true :=
        (parent_map_lookup_isSome _ p).mpr hpp
      obtain ⟨v, hlk⟩ := Option.isSome_iff_exists.mp hsome
      have hnotc : ∀ lf : FileFingerprint → Bool,
          p ∉ pathsOf (current.filter lf) := by
        intro lf hmem
        obtain ⟨fp', hfp', _, hp'⟩ := (pathsOf_filter_mem _ _ _).mp hmem
        exact hpc (List.mem_map.mpr ⟨fp', hfp', hp'⟩)
      refine ⟨?_, hnotc _, hnotc _, hnotc _⟩
      have hmem := dictLookup_eq_some_mem _ _ _ hlk
      have hfilt : (p, v) ∈ (parent_map (p0 :: prest)).filter
          (fun e => ! current.any (fun c => c.relative_path = e.1)) := by
        rw [List.mem_filter]
        refine ⟨hmem, ?_⟩
        rw [Bool.not_eq_true', List.any_eq_false]
        intro c hc
        simp only [decide_eq_true_eq]
        intro hceq
        exact hpc (List.mem_map.mpr ⟨c, hc, hceq⟩)
      have hvpath : v.relative_path = p := (parent_map_lookup_sound _ _ _ hlk).2
      exact List.mem_map.mpr ⟨v, List.mem_map.mpr ⟨(p, v), hfilt, rfl⟩, hvpath⟩
    · -- every bucket path comes from current or parent
      intro p hp
      rcases hp with hp | hp | hp | hp
      · obtain ⟨fp', hfp', _, hp'⟩ := (pathsOf_filter_mem _ _ _).mp hp
        exact Or.inl (List.mem_map.mpr ⟨fp', hfp', hp'⟩)
      · obtain ⟨fp', hfp', _, hp'⟩ := (pathsOf_filter_mem _ _ _).mp hp
        exact Or.inl (List.mem_map.mpr ⟨fp', hfp', hp'⟩)
      · simp only [pathsOf, List.mem_map] at hp
        obtain ⟨v, hv, hvp⟩ := hp
        obtain ⟨e, he, hev⟩ := hv
        have hent := parent_map_entries _ e (List.mem_filter.mp he).1
        right
        refine List.mem_map.mpr ⟨e.2, hent.1, ?_⟩
        rw [hev]
        exact hvp
      · obtain ⟨fp', hfp', _, hp'⟩ := (pathsOf_filter_mem _ _ _).mp hp
        exact Or.inl (List.mem_map.mpr ⟨fp', hfp', hp'⟩)
    · -- unchanged entries have a hash-identical parent entry
      intro fp hfp
      obtain ⟨hfpc, hpred⟩ := List.mem_filter.mp hfp
      cases hlk : dictLookup (parent_map (p0 :: prest)) fp.relative_path with
      | none =>
        rw [hlk] at hpred
        simp at hpred
      | some pfp =>
        rw [hlk] at hpred
        simp only [decide_eq_true_eq] at hpred
        have hs := parent_map_lookup_sound _ _ _ hlk
        exact ⟨pfp, hs.1, hs.2, hpred⟩

/-- Witness for C4 at a concrete pair of fingerprint lists. -/
theorem C4_delta_partition_witness :
    DeltaPartitionSpec
      [{ relative_path := "a", sha256 := "h1", size := 1, mtime := 0 },
       { relative_path := "b", sha256 := "h2", size := 1, mtime := 0 }]
      [{ relative_path := "b", sha256 := "h3", size := 1, mtime := 0 },
       { relative_path := "c", sha256 := "h4", size := 1, mtime := 0 }]
      (compute_delta
        [{ relative_path := "a", sha256 := "h1", size := 1, mtime := 0 },
         { relative_path := "b", sha256 := "h2", size := 1, mtime := 0 }]
        (some [{ relative_path := "b", sha256 := "h3", size := 1, mtime := 0 },
               { relative_path := "c", sha256 := "h4", size := 1, mtime := 0 }]))
    ∧ compute_delta
        [{ relative_path := "a", sha256 := "h1", size := 1, mtime := 0 },
         { relative_path := "b", sha256 := "h2", size := 1, mtime := 0 }] none
      = { added := [{ relative_path := "a", sha256 := "h1", size := 1, mtime := 0 },
                    { relative_path := "b", sha256 := "h2", size := 1, mtime := 0 }],
          modified := [], deleted := [], unchanged := [] } :=
  C4_delta_partition
    [{ relative_path := "a", sha256 := "h1", size := 1, mtime := 0 },
     { relative_path := "b", sha256 := "h2", size := 1, mtime := 0 }]
    [{ relative_path := "b", sha256 := "h3", size := 1, mtime := 0 },
     { relative_path := "c", sha256 := "h4", size := 1, mtime := 0 }]
    (by decide)

/-- Counterexample to C4 as stated: with a current list holding two
entries at the same path (and differing hashes), the path lands in two
buckets at once — `modified` and `unchanged` — so for arbitrary fingerprint
lists the buckets do not partition the union with no path in two buckets. -/
theorem C4_counterexample :
    "a" ∈ pathsOf (compute_delta
        [{ relative_path := "a", sha256 := "h1", size := 0, mtime := 0 },
         { relative_path := "a", sha256 := "h2", size := 0, mtime := 0 }]
        (some [{ relative_path := "a", sha256 := "h1", size := 0, mtime := 0 }])).modified
    ∧ "a" ∈ pathsOf (compute_delta
        [{ relative_path := "a", sha256 := "h1", size := 0, mtime := 0 },
         { relative_path := "a", sha256 := "h2", size := 0, mtime := 0 }]
        (some [{ relative_path := "a", sha256 := "h1", size := 0, mtime := 0 }])).unchanged := by
  exact ⟨by decide, by decide⟩

/-- C8: the `Profile` model declares no signing-key fields, so the
`signing_public_key` and `signing_private_key_enc` keyword arguments that
profile creation passes are silently dropped — two creations differing
only in their signing key material construct the *same* profile value,
which therefore carries no signing key material at all. -/
theorem C8_profile_drops_signing_material :
    profileFromInit
        { name := "p", source_dir := "/s", repo := "u/r", token_ref := "t",
          created_at := "2024-01-01", master_key_enc := "mk", master_key_salt := "ms",
          recovery_key_enc := "rk", recovery_key_salt := "rs",
          signing_public_key := "PUBKEY-A", signing_private_key_enc := "PRIVWRAP-A" }
      = profileFromInit
        { name := "p", source_dir := "/s", repo := "u/r", token_ref := "t",
          created_at := "2024-01-01", master_key_enc := "mk", master_key_salt := "ms",
          recovery_key_enc := "rk", recovery_key_salt := "rs",
          signing_public_key := "PUBKEY-B", signing_private_key_enc := "PRIVWRAP-B" }
    ∧ ("PUBKEY-A" : String) ≠ "PUBKEY-B"
    ∧ ("PRIVWRAP-A" : String) ≠ "PRIVWRAP-B" := by
  exact ⟨rfl, by decide, by decide⟩

end Termbackup
